import Mathlib

/-!
Verification development for the gradient-based regression-poisoning engine
of the holisticai repository (robustness attackers: linear and ridge
gradient-descent poisoners).  The Python implementation of the optimizer is
not part of the shipped sources; only its tutorial notebook with execution
logs is.  The definitions below are therefore modelled from the design
specification, with the notebook's logged behaviour (poison count, per
iteration records, no-progress handling) taken as the authority wherever
the two disagree.
-/

namespace PoisonGD

/-- Feature vectors and label vectors are lists of exact rationals. -/
abbrev Vec := List ℚ

/-- A matrix is a list of row vectors. -/
abbrev Mat := List Vec

/-- Dot product of two vectors (zip-truncating, as both sides have equal
length whenever the inputs are well shaped). -/
def dot (a b : Vec) : ℚ := (List.zipWith (fun x y => x * y) a b).sum

/-- Column `j` of a matrix, reading missing entries as 0. -/
def colVals (A : Mat) (j : ℕ) : Vec := A.map (fun r => r.getD j 0)

/-- Transpose of a matrix whose width is taken from its first row. -/
def transposeM (A : Mat) : Mat :=
  (List.range (A.headD []).length).map (fun j => colVals A j)

/-- Map with the element index, starting the count at `s`. -/
def mapIdxFrom {α β : Type} (f : ℕ → α → β) : ℕ → List α → List β
  | _, [] => []
  | s, x :: xs => f s x :: mapIdxFrom f (s + 1) xs

/-- Matrix--vector product. -/
def matVec (A : Mat) (v : Vec) : Vec := A.map (fun r => dot r v)

/-- Matrix--matrix product. -/
def matMul (A B : Mat) : Mat := A.map (fun r => (transposeM B).map (fun c => dot r c))

/-- Add `lam` on the diagonal: `M + lam * I`. -/
def addLamI (M : Mat) (lam : ℚ) : Mat :=
  mapIdxFrom (fun i row => mapIdxFrom (fun j a => if i = j then a + lam else a) 0 row) 0 M

/-- Determinant by Laplace expansion along the first row, with explicit
fuel so the definition is structurally recursive. -/
def detFuel : ℕ → Mat → ℚ
  | 0, _ => 1
  | _, [] => 1
  | n + 1, r :: rest =>
    (mapIdxFrom (fun j a =>
      (-1 : ℚ) ^ j * a * detFuel n (rest.map (fun row => row.eraseIdx j))) 0 r).sum

/-- Determinant of a square matrix. -/
def det (A : Mat) : ℚ := detFuel A.length A

/-- Replace column `j` of `A` by the vector `b` (Cramer's rule helper). -/
def replaceColumn (A : Mat) (j : ℕ) (b : Vec) : Mat :=
  List.zipWith (fun row bi => row.set j bi) A b

/-- Solve the square linear system `A w = b` by Cramer's rule; `none`
signals a singular system. -/
def solveCramer (A : Mat) (b : Vec) : Option Vec :=
  let dA := det A
  if dA = 0 then none
  else some ((List.range A.length).map (fun j => det (replaceColumn A j b) / dA))

/-- Error taxonomy of the poison-generation engine, as laid out in the
spec's error-handling design. -/
inductive PoisonError : Type where
  | InvalidConfiguration
  | InsufficientPoisonBudget
  | NumericalInstability
  | Diverged
deriving DecidableEq, Repr

/-- Modelled from the spec: Model Adapter `fit`.  Closed-form (ridge)
normal-equation solution `w = (XᵀX + lam I)⁻¹ Xᵀ y`; `lam = 0` recovers
plain linear regression.  A singular system fails with
`NumericalInstability`.  The Python class implementing this is not among
the shipped sources. -/
def fitModel (lam : ℚ) (X : Mat) (y : Vec) : Except PoisonError Vec :=
  let Xt := transposeM X
  let A := addLamI (matMul Xt X) lam
  let b := matVec Xt y
  match solveCramer A b with
  | none => Except.error PoisonError.NumericalInstability
  | some w => Except.ok w

/-- Model Adapter `predict`. -/
def predict (X : Mat) (w : Vec) : Vec := X.map (fun r => dot r w)

/-- Model Adapter `loss`: mean squared error. -/
def mse (X : Mat) (y : Vec) (w : Vec) : ℚ :=
  (List.zipWith (fun yi pi => (yi - pi) ^ 2) y (predict X w)).sum / (y.length : ℚ)

/-- A poison set: one (feature row, label) pair per poison point. -/
abbrev PoisonSet := List (Vec × ℚ)

/-- Modelled from the spec: Objective Evaluator.  Refit the surrogate on
clean ∪ poison and return the clean-training-set error as the scalar the
attacker maximizes (the notebook log shows the iteration-0 objective equal
to the clean training error). -/
def objective (lam : ℚ) (Xc : Mat) (yc : Vec) (ps : PoisonSet) : Except PoisonError ℚ :=
  Except.map (mse Xc yc) (fitModel lam (Xc ++ ps.map Prod.fst) (yc ++ ps.map Prod.snd))

/-- Clip a value into `[lo, hi]`. -/
def clip (lo hi v : ℚ) : ℚ := max lo (min hi v)

/-- Keep the candidate category nearer to `v`; on a distance tie keep the
smaller value. -/
def pickNearer (v best x : ℚ) : ℚ :=
  if |x - v| < |best - v| ∨ (|x - v| = |best - v| ∧ x < best) then x else best

/-- Modelled from the spec: Categorical Projector kernel — the observed
category nearest to `v` by absolute distance, ties resolved by the
smallest category value. -/
def nearestCat (cats : Vec) (v : ℚ) : ℚ :=
  match cats with
  | [] => v
  | c :: cs => cs.foldl (pickNearer v) c

/-- Modelled from the spec: project one poison feature row — every column
flagged `1` in the categorical mask is snapped to the nearest observed
value of that column of the clean data; other columns are untouched. -/
def projectRow (mask : Vec) (Xc : Mat) (row : Vec) : Vec :=
  mapIdxFrom (fun j v => if mask.getD j 0 = 1 then nearestCat (colVals Xc j) v else v) 0 row

/-- Minimum of a list of rationals (0 for the empty list). -/
def listMin : Vec → ℚ
  | [] => 0
  | x :: xs => xs.foldl min x

/-- Maximum of a list of rationals (0 for the empty list). -/
def listMax : Vec → ℚ
  | [] => 0
  | x :: xs => xs.foldl max x

/-- One per-iteration diagnostic record: iteration index, candidate
objective value, change from the previously accepted objective, count of
labels pushed out of bounds (absent at iteration 0), progress flag. -/
structure IterRec : Type where
  idx : ℕ
  obj : ℚ
  change : ℚ
  outb : Option ℕ
  progress : Bool
deriving DecidableEq, Repr

/-- Default record used when indexing record lists. -/
def recDefault : IterRec := ⟨0, 0, 0, none, false⟩

/-- Configuration of `generate`, per the spec's external interface. -/
structure GDConfig : Type where
  poisonProportion : ℚ
  numInits : ℕ
  maxIters : ℕ
  tol : ℚ
  lam : ℚ
  eta0 : ℚ
  returnOnlyPoisoned : Bool

/-- A per-point gradient-step proposal: step size, iteration index, point
index, current features and label ↦ updated features and label.  The
implicit-differentiation gradient of the missing Python code is one
instance of this shape; the control layer is verified for every
instance. -/
abbrev StepFn := ℚ → ℕ → ℕ → Vec → ℚ → Vec × ℚ

/-- Everything one optimization run reads. -/
structure RunEnv : Type where
  cfg : GDConfig
  step : StepFn
  Xc : Mat
  yc : Vec
  mask : Vec

/-- Lower label bound: minimum of the clean labels. -/
def yLo (E : RunEnv) : ℚ := listMin E.yc

/-- Upper label bound: maximum of the clean labels. -/
def yHi (E : RunEnv) : ℚ := listMax E.yc

/-- Modelled from the spec: apply the Categorical Projector and the Bound
Enforcer to a raw candidate, also counting how many labels were pushed out
of bounds. -/
def processCand (E : RunEnv) (raw : PoisonSet) : PoisonSet × ℕ :=
  (raw.map (fun p => (projectRow E.mask E.Xc p.1, clip (yLo E) (yHi E) p.2)),
   (raw.map Prod.snd).countP (fun v => decide (v < yLo E) || decide (yHi E < v)))

/-- Mutable state of one restart of the optimization loop. -/
structure LoopState : Type where
  ps : PoisonSet
  bestObj : Option ℚ
  eta : ℚ
  recs : List IterRec
deriving DecidableEq, Repr

/-- The candidate poison set of iteration `i` (gradient proposal, then
projection and clipping) together with its out-of-bounds count. -/
def candSet (E : RunEnv) (st : LoopState) (i : ℕ) : PoisonSet × ℕ :=
  processCand E (mapIdxFrom (fun j p => E.step st.eta i j p.1 p.2) 0 st.ps)

/-- Modelled from the spec and the notebook log: one Step Controller
iteration.  The candidate objective is compared with the previously
accepted one; on progress (`change ≥ tol`) the candidate is kept, else the
previous poison set is kept, the step size is halved and the record still
logs the candidate's actual change (the notebook logs nonzero changes on
no-progress iterations).  A failed fit is a failed iteration, not a fatal
error. -/
def runIter (E : RunEnv) (st : LoopState) (i : ℕ) : LoopState :=
  match objective E.cfg.lam E.Xc E.yc (candSet E st i).1 with
  | Except.error _ =>
      ⟨st.ps, st.bestObj, st.eta / 2,
        st.recs ++ [⟨i, st.bestObj.getD 0, 0, some (candSet E st i).2, false⟩]⟩
  | Except.ok v =>
      if E.cfg.tol ≤ v - st.bestObj.getD 0 then
        ⟨(candSet E st i).1, some v, st.eta,
          st.recs ++ [⟨i, v, v - st.bestObj.getD 0, some (candSet E st i).2, true⟩]⟩
      else
        ⟨st.ps, st.bestObj, st.eta / 2,
          st.recs ++ [⟨i, v, v - st.bestObj.getD 0, some (candSet E st i).2, false⟩]⟩

/-- Iteration 0: evaluate the seed poison set; the previous objective is
implicitly 0, so the recorded change equals the objective itself, and no
out-of-bounds count is reported (matching the notebook log). -/
def initState (E : RunEnv) (ps0 : PoisonSet) : LoopState :=
  match objective E.cfg.lam E.Xc E.yc ps0 with
  | Except.error _ => ⟨ps0, none, E.cfg.eta0, [⟨0, 0, 0, none, false⟩]⟩
  | Except.ok v => ⟨ps0, some v, E.cfg.eta0, [⟨0, v, v, none, true⟩]⟩

/-- One full restart: iteration 0 on the seed, then `maxIters` controlled
gradient iterations. -/
def runLoop (E : RunEnv) (ps0 : PoisonSet) : LoopState :=
  (List.range E.cfg.maxIters).foldl (fun st j => runIter E st (j + 1)) (initState E ps0)

/-- Modelled from the spec: seed a restart by duplicating `k` clean
samples (cyclically, offset by the restart index) with flipped labels. -/
def initPoison (E : RunEnv) (k r : ℕ) : PoisonSet :=
  (List.range k).map (fun i =>
    (E.Xc.getD ((i + r) % E.Xc.length) [],
     yLo E + yHi E - E.yc.getD ((i + r) % E.Xc.length) 0))

/-- Is candidate score `b` a strict improvement over incumbent `a`?  Used
for the best-restart reduction; ties keep the earliest restart. -/
def betterScore : Option ℚ → Option ℚ → Bool
  | some b, some a => decide (a < b)
  | some _, none => true
  | none, _ => false

/-- Run all restarts and keep the state with the best accepted objective,
ties broken in favour of the earliest restart. -/
def bestRun (E : RunEnv) (k : ℕ) : LoopState :=
  (List.range (E.cfg.numInits - 1)).foldl
    (fun acc r =>
      let cand := runLoop E (initPoison E k (r + 1))
      if betterScore cand.bestObj acc.bestObj then cand else acc)
    (runLoop E (initPoison E k 0))

/-- Round half up. -/
def roundHalfUp (q : ℚ) : ℤ := ((q + 1 / 2).num).fdiv ((q + 1 / 2).den)

/-- Modelled from the notebook log (Poison Count: 374 for
poison_proportion 0.2 on 1495 training rows): the poison count measures
the proportion against the final poisoned set, `k = round(p·n/(1−p))`. -/
def poisonCount (p : ℚ) (n : ℕ) : ℕ := (roundHalfUp (p * (n : ℚ) / (1 - p))).toNat

/-- Modelled from the spec: input validation of `generate` — proportion in
(0,1], mask length equal to the feature count, matching row counts, and at
least one restart (the error taxonomy lists zero restarts under
`InvalidConfiguration`). -/
def validConfig (cfg : GDConfig) (Xc : Mat) (yc : Vec) (mask : Vec) : Prop :=
  0 < cfg.poisonProportion ∧ cfg.poisonProportion ≤ 1 ∧
    mask.length = (Xc.headD []).length ∧ Xc.length = yc.length ∧ 1 ≤ cfg.numInits

instance (cfg : GDConfig) (Xc : Mat) (yc : Vec) (mask : Vec) :
    Decidable (validConfig cfg Xc yc mask) := by
  unfold validConfig
  infer_instance

/-- The poison set returned once validation has passed: features and
labels of the best restart, optionally concatenated with the clean
data. -/
def generateCore (cfg : GDConfig) (f : StepFn) (Xc : Mat) (yc : Vec) (mask : Vec)
    (k : ℕ) : Mat × Vec :=
  let E : RunEnv := ⟨cfg, f, Xc, yc, mask⟩
  let fin := bestRun E k
  if cfg.returnOnlyPoisoned then (fin.ps.map Prod.fst, fin.ps.map Prod.snd)
  else (Xc ++ fin.ps.map Prod.fst, yc ++ fin.ps.map Prod.snd)

/-- Modelled from the spec: the Poisoning Optimizer entry point
`generate`.  Validates, computes the poison budget, runs the restarts and
returns the best poison set.  The Python `LinRegGDPoisoner.generate` /
`RidgeGDPoisoner.generate` bodies are not among the shipped sources. -/
def generate (cfg : GDConfig) (f : StepFn) (Xc : Mat) (yc : Vec) (mask : Vec) :
    Except PoisonError (Mat × Vec) :=
  if validConfig cfg Xc yc mask then
    if poisonCount cfg.poisonProportion Xc.length = 0 then
      Except.error PoisonError.InsufficientPoisonBudget
    else
      Except.ok (generateCore cfg f Xc yc mask (poisonCount cfg.poisonProportion Xc.length))
  else Except.error PoisonError.InvalidConfiguration


/-!
Batteries marks the rational-number operations irreducible; computations on
concrete inputs below are checked by the kernel, so reducibility is
restored for this development.
-/

unseal Rat.add Rat.mul Rat.inv Rat.sub

set_option maxRecDepth 100000

set_option maxHeartbeats 2000000

/-! ### Generic list helpers -/

theorem mapIdxFrom_length {α β : Type} (f : ℕ → α → β) :
    ∀ (s : ℕ) (l : List α), (mapIdxFrom f s l).length = l.length := by
  intro s l
  induction l generalizing s with
  | nil => rfl
  | cons x xs ih => simp [mapIdxFrom, ih]

theorem mapIdxFrom_getD {α β : Type} (f : ℕ → α → β) (d : α) (d2 : β) :
    ∀ (l : List α) (s j : ℕ), j < l.length →
      (mapIdxFrom f s l).getD j d2 = f (s + j) (l.getD j d) := by
  intro l
  induction l with
  | nil => intro s j h; simp at h
  | cons x xs ih =>
    intro s j h
    cases j with
    | zero => simp [mapIdxFrom]
    | succ j =>
      have hj : j < xs.length := by simpa using h
      have := ih (s + 1) j hj
      simpa [mapIdxFrom, Nat.add_assoc, Nat.add_comm, Nat.add_left_comm] using this

theorem getD_mem {α : Type} (d : α) :
    ∀ (l : List α) (j : ℕ), j < l.length → l.getD j d ∈ l := by
  intro l
  induction l with
  | nil => intro j h; simp at h
  | cons x xs ih =>
    intro j h
    cases j with
    | zero => simp
    | succ j =>
      have hj : j < xs.length := by simpa using h
      simpa using Or.inr (ih j hj)

theorem foldl_inv {α β : Type} (Inv : α → Prop) (f : α → β → α) :
    ∀ (l : List β) (a : α), Inv a → (∀ x b, Inv x → Inv (f x b)) → Inv (l.foldl f a) := by
  intro l
  induction l with
  | nil => intro a h _; exact h
  | cons b bs ih => intro a h hf; exact ih (f a b) (hf a b h) hf

/-! ### Minimum / maximum of a label list -/

theorem foldl_min_le_init (l : List ℚ) : ∀ a : ℚ, l.foldl min a ≤ a := by
  induction l with
  | nil => intro a; exact le_refl a
  | cons x xs ih =>
    intro a
    exact le_trans (ih (min a x)) (min_le_left a x)

theorem foldl_min_le_mem (l : List ℚ) : ∀ (a x : ℚ), x ∈ l → l.foldl min a ≤ x := by
  induction l with
  | nil => intro a x h; simp at h
  | cons y ys ih =>
    intro a x h
    rcases List.mem_cons.mp h with h | h
    · subst h
      exact le_trans (foldl_min_le_init ys (min a x)) (min_le_right a x)
    · exact ih (min a y) x h

theorem init_le_foldl_max (l : List ℚ) : ∀ a : ℚ, a ≤ l.foldl max a := by
  induction l with
  | nil => intro a; exact le_refl a
  | cons x xs ih =>
    intro a
    exact le_trans (le_max_left a x) (ih (max a x))

theorem mem_le_foldl_max (l : List ℚ) : ∀ (a x : ℚ), x ∈ l → x ≤ l.foldl max a := by
  induction l with
  | nil => intro a x h; simp at h
  | cons y ys ih =>
    intro a x h
    rcases List.mem_cons.mp h with h | h
    · subst h
      exact le_trans (le_max_right a x) (init_le_foldl_max ys (max a x))
    · exact ih (max a y) x h

theorem listMin_le_mem (l : List ℚ) (x : ℚ) (h : x ∈ l) : listMin l ≤ x := by
  cases l with
  | nil => simp at h
  | cons y ys =>
    rcases List.mem_cons.mp h with h | h
    · subst h; exact foldl_min_le_init ys x
    · exact foldl_min_le_mem ys y x h

theorem mem_le_listMax (l : List ℚ) (x : ℚ) (h : x ∈ l) : x ≤ listMax l := by
  cases l with
  | nil => simp at h
  | cons y ys =>
    rcases List.mem_cons.mp h with h | h
    · subst h; exact init_le_foldl_max ys x
    · exact mem_le_foldl_max ys y x h

theorem listMin_le_listMax (l : List ℚ) (h : l ≠ []) : listMin l ≤ listMax l := by
  cases l with
  | nil => exact absurd rfl h
  | cons y ys =>
    exact le_trans (listMin_le_mem (y :: ys) y (by simp)) (mem_le_listMax (y :: ys) y (by simp))

/-! ### Clipping -/

theorem clip_bounds (lo hi v : ℚ) (h : lo ≤ hi) :
    lo ≤ clip lo hi v ∧ clip lo hi v ≤ hi := by
  unfold clip
  constructor
  · exact le_max_left lo (min hi v)
  · exact max_le h (min_le_left hi v)

/-! ### Properties of the categorical projector kernel -/

theorem pickNearer_props (v best x : ℚ) :
    (pickNearer v best x = x ∨ pickNearer v best x = best) ∧
    |pickNearer v best x - v| ≤ |best - v| ∧
    |pickNearer v best x - v| ≤ |x - v| ∧
    (|pickNearer v best x - v| = |best - v| → pickNearer v best x ≤ best) ∧
    (|pickNearer v best x - v| = |x - v| → pickNearer v best x ≤ x) := by
  unfold pickNearer
  by_cases hc : |x - v| < |best - v| ∨ (|x - v| = |best - v| ∧ x < best)
  · rw [if_pos hc]
    refine ⟨Or.inl rfl, ?_, le_refl _, ?_, fun _ => le_refl x⟩
    · rcases hc with h | h
      · exact le_of_lt h
      · exact le_of_eq h.1
    · intro he
      rcases hc with h | h
      · exact absurd he (ne_of_lt h)
      · exact le_of_lt h.2
  · rw [if_neg hc]
    push_neg at hc
    refine ⟨Or.inr rfl, le_refl _, hc.1, fun _ => le_refl best, ?_⟩
    intro he
    exact hc.2 he.symm

theorem foldl_pickNearer_props (v : ℚ) :
    ∀ (cs : List ℚ) (acc : ℚ),
      (cs.foldl (pickNearer v) acc = acc ∨ cs.foldl (pickNearer v) acc ∈ cs) ∧
      |cs.foldl (pickNearer v) acc - v| ≤ |acc - v| ∧
      (|cs.foldl (pickNearer v) acc - v| = |acc - v| → cs.foldl (pickNearer v) acc ≤ acc) ∧
      (∀ x ∈ cs, |cs.foldl (pickNearer v) acc - v| ≤ |x - v| ∧
        (|cs.foldl (pickNearer v) acc - v| = |x - v| → cs.foldl (pickNearer v) acc ≤ x)) := by
  intro cs
  induction cs with
  | nil =>
    intro acc
    exact ⟨Or.inl rfl, le_refl _, fun _ => le_refl _, fun x hx => absurd hx (by simp)⟩
  | cons c cs ih =>
    intro acc
    have hpick := pickNearer_props v acc c
    obtain ⟨hmem, hda, hdc, hta, htc⟩ := hpick
    obtain ⟨ihmem, ihd, iht, ihall⟩ := ih (pickNearer v acc c)
    have hfold : (c :: cs).foldl (pickNearer v) acc = cs.foldl (pickNearer v) (pickNearer v acc c) := by
      simp [List.foldl_cons]
    rw [hfold]
    refine ⟨?_, le_trans ihd hda, ?_, ?_⟩
    · rcases ihmem with h | h
      · rcases hmem with h2 | h2
        · exact Or.inr (by rw [h, h2]; exact List.mem_cons_self c cs)
        · exact Or.inl (by rw [h, h2])
      · exact Or.inr (List.mem_cons_of_mem c h)
    · intro he
      have h1 : |cs.foldl (pickNearer v) (pickNearer v acc c) - v| = |pickNearer v acc c - v| :=
        le_antisymm ihd (by linarith)
      have h2 : |pickNearer v acc c - v| = |acc - v| := by linarith
      exact le_trans (iht h1) (hta h2)
    · intro x hx
      rcases List.mem_cons.mp hx with h | h
      · subst h
        constructor
        · exact le_trans ihd hdc
        · intro he
          have h1 : |cs.foldl (pickNearer v) (pickNearer v acc x) - v| = |pickNearer v acc x - v| :=
            le_antisymm ihd (by linarith)
          have h2 : |pickNearer v acc x - v| = |x - v| := by linarith
          exact le_trans (iht h1) (htc h2)
      · exact ihall x h

theorem nearestCat_mem (cats : Vec) (v : ℚ) (h : cats ≠ []) : nearestCat cats v ∈ cats := by
  cases cats with
  | nil => exact absurd rfl h
  | cons c cs =>
    have := (foldl_pickNearer_props v cs c).1
    rcases this with h | h
    · rw [nearestCat, h]; exact List.mem_cons_self c cs
    · rw [nearestCat]; exact List.mem_cons_of_mem c h

theorem nearestCat_nearest (cats : Vec) (v x : ℚ) (hx : x ∈ cats) :
    |nearestCat cats v - v| ≤ |x - v| := by
  cases cats with
  | nil => simp at hx
  | cons c cs =>
    obtain ⟨_, hd, _, hall⟩ := foldl_pickNearer_props v cs c
    rcases List.mem_cons.mp hx with h | h
    · subst h; exact hd
    · exact (hall x h).1

theorem nearestCat_tie (cats : Vec) (v x : ℚ) (hx : x ∈ cats)
    (h : |nearestCat cats v - v| = |x - v|) : nearestCat cats v ≤ x := by
  cases cats with
  | nil => simp at hx
  | cons c cs =>
    obtain ⟨_, _, ht, hall⟩ := foldl_pickNearer_props v cs c
    rcases List.mem_cons.mp hx with h2 | h2
    · subst h2; exact ht h
    · exact (hall x h2).2 h

/-! ### Structure of the projector and candidate processing -/

theorem projectRow_length (mask : Vec) (Xc : Mat) (row : Vec) :
    (projectRow mask Xc row).length = row.length := by
  unfold projectRow
  exact mapIdxFrom_length _ 0 row

theorem projectRow_getD (mask : Vec) (Xc : Mat) (row : Vec) (j : ℕ) (h : j < row.length) :
    (projectRow mask Xc row).getD j 0 =
      if mask.getD j 0 = 1 then nearestCat (colVals Xc j) (row.getD j 0)
      else row.getD j 0 := by
  unfold projectRow
  simpa using mapIdxFrom_getD _ (0 : ℚ) (0 : ℚ) row 0 j h

theorem colVals_ne_nil (Xc : Mat) (j : ℕ) (h : Xc ≠ []) : colVals Xc j ≠ [] := by
  unfold colVals
  simpa using h

theorem mem_colVals_of_mem (Xc : Mat) (r : Vec) (j : ℕ) (h : r ∈ Xc) :
    r.getD j 0 ∈ colVals Xc j := by
  unfold colVals
  exact List.mem_map.mpr ⟨r, h, rfl⟩

/-! ### Structure of single iterations and the loop -/

theorem initState_ps (E : RunEnv) (ps0 : PoisonSet) : (initState E ps0).ps = ps0 := by
  unfold initState
  cases objective E.cfg.lam E.Xc E.yc ps0 <;> rfl

theorem initState_recs (E : RunEnv) (ps0 : PoisonSet) :
    ∃ r0 : IterRec, (initState E ps0).recs = [r0] ∧ r0.idx = 0 ∧ r0.outb = none ∧
      r0.change = r0.obj := by
  unfold initState
  cases objective E.cfg.lam E.Xc E.yc ps0 with
  | error e => exact ⟨⟨0, 0, 0, none, false⟩, rfl, rfl, rfl, rfl⟩
  | ok v => exact ⟨⟨0, v, v, none, true⟩, rfl, rfl, rfl, rfl⟩

theorem runIter_ps (E : RunEnv) (st : LoopState) (i : ℕ) :
    (runIter E st i).ps = st.ps ∨ (runIter E st i).ps = (candSet E st i).1 := by
  unfold runIter
  cases objective E.cfg.lam E.Xc E.yc (candSet E st i).1 with
  | error e => exact Or.inl rfl
  | ok v =>
    dsimp only
    by_cases h : E.cfg.tol ≤ v - st.bestObj.getD 0
    · rw [if_pos h]
      exact Or.inr rfl
    · rw [if_neg h]
      exact Or.inl rfl

theorem runIter_recs (E : RunEnv) (st : LoopState) (i : ℕ) :
    ∃ r : IterRec, (runIter E st i).recs = st.recs ++ [r] ∧ r.idx = i ∧
      r.outb = some (candSet E st i).2 := by
  unfold runIter
  cases objective E.cfg.lam E.Xc E.yc (candSet E st i).1 with
  | error e => exact ⟨_, rfl, rfl, rfl⟩
  | ok v =>
    dsimp only
    by_cases h : E.cfg.tol ≤ v - st.bestObj.getD 0
    · rw [if_pos h]
      exact ⟨_, rfl, rfl, rfl⟩
    · rw [if_neg h]
      exact ⟨_, rfl, rfl, rfl⟩

theorem foldlIter_recs (E : RunEnv) :
    ∀ (l : List ℕ) (st : LoopState), ∃ tail : List IterRec,
      (l.foldl (fun s j => runIter E s (j + 1)) st).recs = st.recs ++ tail ∧
      tail.map (fun r => r.idx) = l.map (fun j => j + 1) ∧
      ∀ r ∈ tail, r.outb.isSome = true := by
  intro l
  induction l with
  | nil => intro st; exact ⟨[], by simp, by simp, by simp⟩
  | cons j l ih =>
    intro st
    obtain ⟨tail, htail, hidx, hsome⟩ := ih (runIter E st (j + 1))
    obtain ⟨r, hr, hri, hro⟩ := runIter_recs E st (j + 1)
    refine ⟨r :: tail, ?_, ?_, ?_⟩
    · simp only [List.foldl_cons] at *
      rw [htail, hr, List.append_assoc]
      rfl
    · simp [hidx, hri]
    · intro q hq
      rcases List.mem_cons.mp hq with h | h
      · subst h; rw [hro]; rfl
      · exact hsome q h

theorem runLoop_recs (E : RunEnv) (ps0 : PoisonSet) :
    ∃ (r0 : IterRec) (tail : List IterRec),
      (runLoop E ps0).recs = r0 :: tail ∧ r0.idx = 0 ∧ r0.outb = none ∧
      r0.change = r0.obj ∧
      tail.map (fun r => r.idx) = (List.range E.cfg.maxIters).map (fun j => j + 1) ∧
      ∀ r ∈ tail, r.outb.isSome = true := by
  obtain ⟨r0, h0, hidx0, hout0, hch0⟩ := initState_recs E ps0
  obtain ⟨tail, htail, hidx, hsome⟩ := foldlIter_recs E (List.range E.cfg.maxIters) (initState E ps0)
  refine ⟨r0, tail, ?_, hidx0, hout0, hch0, hidx, hsome⟩
  unfold runLoop
  rw [htail, h0]
  rfl

/-! ### Invariant propagation through the loop and the restarts -/

theorem runLoop_ps_inv (E : RunEnv) (P : PoisonSet → Prop) (ps0 : PoisonSet)
    (h0 : P ps0)
    (hstep : ∀ (st : LoopState) (i : ℕ), P st.ps → P ((candSet E st i).1)) :
    P ((runLoop E ps0).ps) := by
  unfold runLoop
  refine foldl_inv (fun st => P st.ps) _ (List.range E.cfg.maxIters) (initState E ps0) ?_ ?_
  · show P (initState E ps0).ps
    rw [initState_ps]; exact h0
  · intro st j hst
    rcases runIter_ps E st (j + 1) with h | h
    · rw [h]; exact hst
    · rw [h]; exact hstep st (j + 1) hst

theorem bestRun_ps_inv (E : RunEnv) (k : ℕ) (P : PoisonSet → Prop)
    (hinit : ∀ r, P (initPoison E k r))
    (hstep : ∀ (st : LoopState) (i : ℕ), P st.ps → P ((candSet E st i).1)) :
    P ((bestRun E k).ps) := by
  unfold bestRun
  refine foldl_inv (fun st => P st.ps)
    (fun acc r =>
      if betterScore (runLoop E (initPoison E k (r + 1))).bestObj acc.bestObj then
        runLoop E (initPoison E k (r + 1)) else acc)
    (List.range (E.cfg.numInits - 1)) _ ?_ ?_
  · exact runLoop_ps_inv E P _ (hinit 0) hstep
  · intro st r hst
    by_cases h : betterScore (runLoop E (initPoison E k (r + 1))).bestObj st.bestObj = true
    · simp only [h, if_pos]
      exact runLoop_ps_inv E P _ (hinit (r + 1)) hstep
    · simp only [h]
      rw [if_neg (by simp [h])]
      exact hst

/-! ### Properties of validation, budget and seeding -/

theorem poisonCount_zero (p : ℚ) : poisonCount p 0 = 0 := by
  unfold poisonCount
  rw [Nat.cast_zero, mul_zero, zero_div]
  decide

theorem generate_ok_elim (cfg : GDConfig) (f : StepFn) (Xc : Mat) (yc : Vec) (mask : Vec)
    (res : Mat × Vec) (h : generate cfg f Xc yc mask = Except.ok res) :
    validConfig cfg Xc yc mask ∧ poisonCount cfg.poisonProportion Xc.length ≠ 0 ∧
      res = generateCore cfg f Xc yc mask (poisonCount cfg.poisonProportion Xc.length) := by
  unfold generate at h
  by_cases hv : validConfig cfg Xc yc mask
  · rw [if_pos hv] at h
    by_cases hk : poisonCount cfg.poisonProportion Xc.length = 0
    · rw [if_pos hk] at h
      exact absurd h (by simp)
    · rw [if_neg hk] at h
      refine ⟨hv, hk, ?_⟩
      exact (Except.ok.injEq _ _ ▸ h).symm
  · rw [if_neg hv] at h
    exact absurd h (by simp)

theorem initPoison_length (E : RunEnv) (k r : ℕ) : (initPoison E k r).length = k := by
  unfold initPoison
  simp

theorem initPoison_mem (E : RunEnv) (k r : ℕ) (q : Vec × ℚ) (h : q ∈ initPoison E k r)
    (hn : E.Xc.length ≠ 0) :
    ∃ m : ℕ, m < E.Xc.length ∧
      q = (E.Xc.getD m [], yLo E + yHi E - E.yc.getD m 0) := by
  unfold initPoison at h
  obtain ⟨i, _, hq⟩ := List.mem_map.mp h
  exact ⟨(i + r) % E.Xc.length, Nat.mod_lt _ (Nat.pos_of_ne_zero hn), hq.symm⟩

/-! ### Label-range and categorical invariants of processed candidates -/

theorem processCand_length (E : RunEnv) (raw : PoisonSet) :
    (processCand E raw).1.length = raw.length := by
  unfold processCand
  simp

theorem processCand_labels (E : RunEnv) (raw : PoisonSet) (q : Vec × ℚ)
    (hq : q ∈ (processCand E raw).1) (hlohi : yLo E ≤ yHi E) :
    yLo E ≤ q.2 ∧ q.2 ≤ yHi E := by
  unfold processCand at hq
  obtain ⟨p, _, hp⟩ := List.mem_map.mp hq
  rw [← hp]
  exact clip_bounds (yLo E) (yHi E) p.2 hlohi

theorem processCand_cats (E : RunEnv) (raw : PoisonSet) (q : Vec × ℚ)
    (hq : q ∈ (processCand E raw).1) (hXc : E.Xc ≠ []) (j : ℕ) (hj : j < q.1.length)
    (hflag : E.mask.getD j 0 = 1) : q.1.getD j 0 ∈ colVals E.Xc j := by
  unfold processCand at hq
  obtain ⟨p, _, hp⟩ := List.mem_map.mp hq
  rw [← hp] at hj ⊢
  dsimp only at hj ⊢
  rw [projectRow_length] at hj
  rw [projectRow_getD E.mask E.Xc p.1 j hj, if_pos hflag]
  exact nearestCat_mem (colVals E.Xc j) (p.1.getD j 0) (colVals_ne_nil E.Xc j hXc)

theorem candSet_length (E : RunEnv) (st : LoopState) (i : ℕ) :
    ((candSet E st i).1).length = st.ps.length := by
  unfold candSet
  rw [processCand_length]
  exact mapIdxFrom_length _ 0 st.ps

/-! ### The poison set kept by the best run -/

theorem bestRun_length (E : RunEnv) (k : ℕ) : ((bestRun E k).ps).length = k := by
  refine bestRun_ps_inv E k (fun ps => ps.length = k) (fun r => initPoison_length E k r) ?_
  intro st i h
  rw [candSet_length]
  exact h

theorem bestRun_labels (E : RunEnv) (k : ℕ) (hn : E.Xc.length ≠ 0)
    (hlen : E.Xc.length = E.yc.length) (q : Vec × ℚ) (hq : q ∈ (bestRun E k).ps) :
    yLo E ≤ q.2 ∧ q.2 ≤ yHi E := by
  have hyc : E.yc ≠ [] := by
    intro hnil
    rw [hnil] at hlen
    exact hn (by simpa using hlen)
  have hlohi : yLo E ≤ yHi E := listMin_le_listMax E.yc hyc
  refine bestRun_ps_inv E k (fun ps => ∀ q ∈ ps, yLo E ≤ q.2 ∧ q.2 ≤ yHi E) ?_ ?_ q hq
  · intro r q hq2
    obtain ⟨m, hm, hq3⟩ := initPoison_mem E k r q hq2 hn
    have hmem : E.yc.getD m 0 ∈ E.yc := getD_mem 0 E.yc m (by rw [← hlen]; exact hm)
    have h1 := listMin_le_mem E.yc _ hmem
    have h2 := mem_le_listMax E.yc _ hmem
    rw [hq3]
    dsimp only
    unfold yLo yHi at *
    constructor <;> linarith
  · intro st i _ q hq2
    exact processCand_labels E _ q hq2 hlohi

theorem bestRun_cats (E : RunEnv) (k : ℕ) (hn : E.Xc.length ≠ 0)
    (q : Vec × ℚ) (hq : q ∈ (bestRun E k).ps) (j : ℕ) (hj : j < q.1.length)
    (hflag : E.mask.getD j 0 = 1) : q.1.getD j 0 ∈ colVals E.Xc j := by
  have hXc : E.Xc ≠ [] := by
    intro hnil
    exact hn (by rw [hnil]; rfl)
  refine bestRun_ps_inv E k
    (fun ps => ∀ q ∈ ps, ∀ j, j < q.1.length → E.mask.getD j 0 = 1 →
      q.1.getD j 0 ∈ colVals E.Xc j) ?_ ?_ q hq j hj hflag
  · intro r q hq2 j _ _
    obtain ⟨m, hm, hq3⟩ := initPoison_mem E k r q hq2 hn
    have hrow : E.Xc.getD m [] ∈ E.Xc := getD_mem [] E.Xc m hm
    rw [hq3]
    exact mem_colVals_of_mem E.Xc _ j hrow
  · intro st i _ q hq2 j hj2 hflag2
    exact processCand_cats E _ q hq2 hXc j hj2 hflag2

/-! ### Running maximum of the recorded objective values -/

def bestUpTo (recs : List IterRec) (i : ℕ) : ℚ :=
  ((recs.take (i + 1)).map (fun r => r.obj)).foldl max 0

theorem foldl_max_append (a : ℚ) (l t : List ℚ) :
    (l ++ t).foldl max a = t.foldl max (l.foldl max a) := List.foldl_append max a l t

theorem bestUpTo_mono (recs : List IterRec) (i j : ℕ) (h : i ≤ j) :
    bestUpTo recs i ≤ bestUpTo recs j := by
  unfold bestUpTo
  have h1 : recs.take (i + 1) = (recs.take (j + 1)).take (i + 1) := by
    rw [List.take_take]
    congr 1
    omega
  rw [h1]
  conv_rhs => rw [← List.take_append_drop (i + 1) (recs.take (j + 1))]
  rw [List.map_append, foldl_max_append]
  exact init_le_foldl_max _ _

/-! ### Concrete instances used by witnesses and counterexamples -/

/-- Identity gradient proposal (keeps every poison point unchanged). -/
def stepId : StepFn := fun _ _ _ x y => (x, y)

/-- Proposal moving the single feature to 3 — overshoots and lowers the
objective on the one-point instance below. -/
def stepTilt : StepFn := fun _ _ _ _ y => ([3], y)

/-- Proposal moving the single feature to 2, half way between the observed
categories 1 and 3 of the instance below. -/
def stepMid : StepFn := fun _ _ _ _ y => ([2], y)

/-- Baseline configuration: proportion 1/2, one restart, one iteration. -/
def cfgW : GDConfig := ⟨1/2, 1, 1, 1/1000, 0, 1, true⟩

/-- As `cfgW` but with no gradient iterations. -/
def cfgZeroIters : GDConfig := ⟨1/2, 1, 0, 1/1000, 0, 1, true⟩

/-- As `cfgW` but with tolerance 1, so small improvements are rejected. -/
def cfgTol1 : GDConfig := ⟨1/2, 1, 1, 1, 0, 1, true⟩

/-- As `cfgW` but with nine gradient iterations. -/
def cfgNine : GDConfig := ⟨1/2, 1, 9, 1/1000, 0, 1, true⟩

/-- As `cfgW` but with zero restarts. -/
def cfgZeroInits : GDConfig := ⟨1/2, 0, 1, 1/1000, 0, 1, true⟩

/-- As `cfgW` but with proportion 1/100, giving a poison budget below 1. -/
def cfgTiny : GDConfig := ⟨1/100, 1, 1, 1/1000, 0, 1, true⟩

/-- As `cfgW` but with ridge regularization strength 1. -/
def cfgRidge : GDConfig := ⟨1/2, 1, 1, 1/1000, 1, 1, true⟩

/-- One-sample run whose first gradient step lowers the objective. -/
def envTilt : RunEnv := ⟨cfgTol1, stepTilt, [[1]], [1], [0]⟩

/-- One-sample run whose gradient steps never change anything. -/
def envConst : RunEnv := ⟨cfgNine, stepId, [[1]], [1], [0]⟩

/-- Run on clean data with two identical columns, so `XᵀX` is singular. -/
def envSing : RunEnv := ⟨cfgW, stepId, [[1, 1], [2, 2]], [1, 2], [0, 0]⟩

/-- The singular instance run with the ridge configuration. -/
def envRidge : RunEnv := ⟨cfgRidge, stepId, [[1, 1], [2, 2]], [1, 2], [0, 0]⟩

/-! ### Claim C1 -/

/-- C1 (amended): for every successful `generate`, the returned poison
feature matrix has exactly `k = round(p·n/(1−p))` rows — `n + k` when
concatenation with the clean data is requested — and the label vector has
the same length.  (The claim's original formula `k = round(p·n)` is refuted by
the counterexample below.) -/
theorem claim_C1_rows (cfg : GDConfig) (f : StepFn) (Xc : Mat) (yc : Vec) (mask : Vec)
    (res : Mat × Vec) (hok : generate cfg f Xc yc mask = Except.ok res) :
    res.1.length = (if cfg.returnOnlyPoisoned then 0 else Xc.length) +
      poisonCount cfg.poisonProportion Xc.length ∧
    res.2.length = res.1.length := by
  obtain ⟨hv, hk, hres⟩ := generate_ok_elim cfg f Xc yc mask res hok
  obtain ⟨hp0, hp1, hmask, hrows, hinits⟩ := hv
  subst hres
  unfold generateCore
  by_cases hr : cfg.returnOnlyPoisoned
  · simp [hr, bestRun_length]
  · simp [hr, bestRun_length, hrows]

/-- C1 witness: on a concrete 2-sample instance with proportion 1/2 the
returned matrices have the stated row counts. -/
theorem claim_C1_rows_witness :
    (([[1], [2]] : Mat), ([2, 1] : Vec)).1.length =
      (if cfgW.returnOnlyPoisoned then 0 else ([[1], [2]] : Mat).length) +
        poisonCount cfgW.poisonProportion ([[1], [2]] : Mat).length ∧
    (([[1], [2]] : Mat), ([2, 1] : Vec)).2.length =
      (([[1], [2]] : Mat), ([2, 1] : Vec)).1.length :=
  claim_C1_rows cfgW stepId [[1], [2]] [1, 2] [0] ([[1], [2]], [2, 1]) rfl

/-- C1 counterexample: with n = 3 clean samples and proportion 1/2,
`generate` returns a 3-row poison matrix although round(p·n) = 2; and at
the notebook's scale (n = 1495, p = 1/5) the modelled count is the logged
374 whereas round(p·n) would be 299. -/
theorem claim_C1_cex :
    generate cfgZeroIters stepId [[1], [2], [3]] [1, 2, 4] [0] =
      Except.ok ([[1], [2], [3]], [4, 3, 1]) ∧
    (roundHalfUp ((1 / 2 : ℚ) * 3)).toNat = 2 ∧
    poisonCount (1 / 5) 1495 = 374 ∧
    (roundHalfUp ((1 / 5 : ℚ) * 1495)).toNat = 299 :=
  ⟨rfl, by decide, by decide, by decide⟩

/-! ### Claim C2 -/

/-- C2: every label in the poison set returned by a successful `generate`
lies within `[min(y_clean), max(y_clean)]` inclusive — the Bound Enforcer
clips every label after each gradient step, and the seed labels are
flipped within the observed range. -/
theorem claim_C2_labels (cfg : GDConfig) (f : StepFn) (Xc : Mat) (yc : Vec) (mask : Vec)
    (res : Mat × Vec) (y : ℚ) (hok : generate cfg f Xc yc mask = Except.ok res)
    (hy : y ∈ res.2) : listMin yc ≤ y ∧ y ≤ listMax yc := by
  obtain ⟨hv, hk, hres⟩ := generate_ok_elim cfg f Xc yc mask res hok
  obtain ⟨hp0, hp1, hmask, hrows, hinits⟩ := hv
  have hn : Xc.length ≠ 0 := fun h0 => hk (by rw [h0]; exact poisonCount_zero _)
  subst hres
  unfold generateCore at hy
  by_cases hr : cfg.returnOnlyPoisoned
  · rw [if_pos hr] at hy
    dsimp only at hy
    obtain ⟨q, hq, hqy⟩ := List.mem_map.mp hy
    rw [← hqy]
    exact bestRun_labels ⟨cfg, f, Xc, yc, mask⟩ _ hn hrows q hq
  · rw [if_neg hr] at hy
    dsimp only at hy
    rcases List.mem_append.mp hy with h | h
    · exact ⟨listMin_le_mem yc y h, mem_le_listMax yc y h⟩
    · obtain ⟨q, hq, hqy⟩ := List.mem_map.mp h
      rw [← hqy]
      exact bestRun_labels ⟨cfg, f, Xc, yc, mask⟩ _ hn hrows q hq

/-- C2 witness: on the concrete 2-sample run the returned label 2 lies
within the clean label range [1, 2]. -/
theorem claim_C2_labels_witness :
    listMin [1, 2] ≤ (2 : ℚ) ∧ (2 : ℚ) ≤ listMax [1, 2] :=
  claim_C2_labels cfgW stepId [[1], [2]] [1, 2] [0] ([[1], [2]], [2, 1]) 2 rfl (by decide)

/-! ### Claim C3 -/

/-- C3: for every column flagged in the categorical mask, every value of
that column present in the matrix returned by a successful `generate`
belongs to the set of values observed in that column of the clean data;
the projector maps a value to the nearest observed category by absolute
distance, resolving ties by the smallest category value, and leaves
non-flagged columns untouched. -/
theorem claim_C3_categorical (cfg : GDConfig) (f : StepFn) (Xc : Mat) (yc : Vec)
    (mask : Vec) (res : Mat × Vec) (row : Vec) (j : ℕ) (cats : Vec) (v x : ℚ)
    (mask2 : Vec) (Xc2 : Mat) (row2 : Vec) (j2 : ℕ)
    (hok : generate cfg f Xc yc mask = Except.ok res)
    (hrow : row ∈ res.1) (hj : j < row.length) (hflag : mask.getD j 0 = 1)
    (hc : cats ≠ []) (hx : x ∈ cats)
    (hj2 : j2 < row2.length) (hflag2 : mask2.getD j2 0 ≠ 1) :
    row.getD j 0 ∈ colVals Xc j ∧
    nearestCat cats v ∈ cats ∧
    |nearestCat cats v - v| ≤ |x - v| ∧
    (|nearestCat cats v - v| = |x - v| → nearestCat cats v ≤ x) ∧
    (projectRow mask2 Xc2 row2).getD j2 0 = row2.getD j2 0 := by
  refine ⟨?_, nearestCat_mem cats v hc, nearestCat_nearest cats v x hx,
    nearestCat_tie cats v x hx, ?_⟩
  · obtain ⟨hv2, hk, hres⟩ := generate_ok_elim cfg f Xc yc mask res hok
    obtain ⟨hp0, hp1, hmask, hrows, hinits⟩ := hv2
    have hn : Xc.length ≠ 0 := fun h0 => hk (by rw [h0]; exact poisonCount_zero _)
    subst hres
    unfold generateCore at hrow
    by_cases hr : cfg.returnOnlyPoisoned
    · rw [if_pos hr] at hrow
      dsimp only at hrow
      obtain ⟨q, hq, hqrow⟩ := List.mem_map.mp hrow
      rw [← hqrow] at hj ⊢
      exact bestRun_cats ⟨cfg, f, Xc, yc, mask⟩ _ hn q hq j hj hflag
    · rw [if_neg hr] at hrow
      dsimp only at hrow
      rcases List.mem_append.mp hrow with h | h
      · exact mem_colVals_of_mem Xc row j h
      · obtain ⟨q, hq, hqrow⟩ := List.mem_map.mp h
        rw [← hqrow] at hj ⊢
        exact bestRun_cats ⟨cfg, f, Xc, yc, mask⟩ _ hn q hq j hj hflag
  · rw [projectRow_getD mask2 Xc2 row2 j2 hj2, if_neg hflag2]

/-- C3 witness: on a run with one categorical column of observed values
{1, 3}, a proposed value 2 is projected to the tie-smallest category 1 and
the returned rows carry only observed values. -/
theorem claim_C3_categorical_witness :
    ([1] : Vec).getD 0 0 ∈ colVals [[1], [3]] 0 ∧
    nearestCat [1, 3] 2 ∈ ([1, 3] : Vec) ∧
    |nearestCat [1, 3] 2 - 2| ≤ |(3 : ℚ) - 2| ∧
    (|nearestCat [1, 3] 2 - 2| = |(3 : ℚ) - 2| → nearestCat [1, 3] 2 ≤ 3) ∧
    (projectRow [0] [[1], [3]] [5]).getD 0 0 = ([5] : Vec).getD 0 0 :=
  claim_C3_categorical cfgW stepMid [[1], [3]] [1, 2] [1] ([[1], [1]], [2, 1])
    [1] 0 [1, 3] 2 3 [0] [[1], [3]] [5] 0 rfl (by decide) (by decide) (by decide)
    (by decide) (by decide) (by decide) (by decide)

/-! ### Claim C4 -/

/-- C4 (amended): in a Step Controller iteration whose candidate objective
was computed, the update is accepted exactly when candidate − previous ≥
tolerance; on NO_PROGRESS the previous poison set and best objective are
kept while the appended record logs the candidate's *actual* change —
which may be nonzero or negative — not zero.  (The claim's "record shows
zero change" is refuted by the counterexample below, matching the
notebook log's nonzero changes on no-progress iterations.) -/
theorem claim_C4_step (E : RunEnv) (st : LoopState) (i : ℕ) (v : ℚ)
    (hok : objective E.cfg.lam E.Xc E.yc (candSet E st i).1 = Except.ok v) :
    (v - st.bestObj.getD 0 < E.cfg.tol →
      (runIter E st i).ps = st.ps ∧
      (runIter E st i).bestObj = st.bestObj ∧
      (runIter E st i).recs = st.recs ++
        [⟨i, v, v - st.bestObj.getD 0, some (candSet E st i).2, false⟩]) ∧
    (E.cfg.tol ≤ v - st.bestObj.getD 0 →
      (runIter E st i).ps = (candSet E st i).1 ∧
      (runIter E st i).bestObj = some v ∧
      (runIter E st i).recs = st.recs ++
        [⟨i, v, v - st.bestObj.getD 0, some (candSet E st i).2, true⟩]) := by
  unfold runIter
  rw [hok]
  dsimp only
  constructor
  · intro h
    rw [if_neg (not_le.mpr h)]
    exact ⟨rfl, rfl, rfl⟩
  · intro h
    rw [if_pos h]
    exact ⟨rfl, rfl, rfl⟩

/-- The candidate objective of iteration 1 on the overshooting instance
evaluates to 9/25. -/
theorem objTilt :
    objective envTilt.cfg.lam envTilt.Xc envTilt.yc
      (candSet envTilt (initState envTilt (initPoison envTilt 1 0)) 1).1 =
    Except.ok (9 / 25) := rfl

/-- C4 witness: on the one-point instance whose step overshoots, iteration
1 is a NO_PROGRESS iteration (candidate 9/25 below tolerance 1), the
previous poison set and best objective are kept, and the appended record
carries the actual change 9/25. -/
theorem claim_C4_step_witness :
    (runIter envTilt (initState envTilt (initPoison envTilt 1 0)) 1).ps =
      (initState envTilt (initPoison envTilt 1 0)).ps ∧
    (runIter envTilt (initState envTilt (initPoison envTilt 1 0)) 1).bestObj =
      (initState envTilt (initPoison envTilt 1 0)).bestObj ∧
    (runIter envTilt (initState envTilt (initPoison envTilt 1 0)) 1).recs =
      (initState envTilt (initPoison envTilt 1 0)).recs ++
        [⟨1, 9 / 25,
          9 / 25 - (initState envTilt (initPoison envTilt 1 0)).bestObj.getD 0,
          some (candSet envTilt (initState envTilt (initPoison envTilt 1 0)) 1).2,
          false⟩] :=
  (claim_C4_step envTilt (initState envTilt (initPoison envTilt 1 0)) 1 (9 / 25)
    objTilt).1 (by decide)

/-- C4 counterexample: a NO_PROGRESS iteration whose record carries the
nonzero change 9/25, refuting "the iteration's record shows zero
change". -/
theorem claim_C4_cex :
    ((runLoop envTilt (initPoison envTilt 1 0)).recs.getD 1 recDefault).progress = false ∧
    ((runLoop envTilt (initPoison envTilt 1 0)).recs.getD 1 recDefault).change = 9 / 25 ∧
    ((runLoop envTilt (initPoison envTilt 1 0)).recs.getD 1 recDefault).change ≠ 0 :=
  ⟨by decide, by decide, by decide⟩

/-! ### Claim C5 -/

/-- C5 (amended): every restart records exactly iterations 0 through
max_iters and then stops; termination is by the iteration cap alone — the
change staying below tolerance does not end the loop early (the
exact-rational model has no non-finite objective, and a failed fit is a
failed iteration, not an abort), and no iteration is recorded beyond the
cap.  (The early-CONVERGED termination is refuted by the counterexample
below, matching the ridge notebook log where eight consecutive
zero-change iterations did not stop the run.) -/
theorem claim_C5_cap (E : RunEnv) (ps0 : PoisonSet) :
    ((runLoop E ps0).recs).map (fun r => r.idx) = List.range (E.cfg.maxIters + 1) ∧
    ((runLoop E ps0).recs).length = E.cfg.maxIters + 1 := by
  obtain ⟨r0, tail, hrecs, hidx0, _, _, hidx, _⟩ := runLoop_recs E ps0
  have hlen : tail.length = E.cfg.maxIters := by
    have h2 := congrArg List.length hidx
    simpa using h2
  constructor
  · rw [hrecs, List.map_cons, hidx0, hidx, List.range_succ_eq_map]
  · rw [hrecs]
    simp [hlen]

/-- C5 counterexample: a run with tolerance 1/1000 whose changes are 0
from iteration 1 on — below tolerance for eight consecutive iterations by
iteration 8 — yet iteration 9 is still recorded, so the loop did not
terminate as soon as changes stayed below tolerance. -/
theorem claim_C5_cex :
    (runLoop envConst (initPoison envConst 1 0)).recs.map (fun r => r.change) =
      List.replicate 10 0 ∧
    (0 : ℚ) < envConst.cfg.tol ∧
    (runLoop envConst (initPoison envConst 1 0)).recs.length = 10 :=
  ⟨by decide, by decide, by decide⟩

/-! ### Claim C6 -/

/-- C6: within one restart, the running maximum of the recorded objective
values never decreases across iterations (non-decreasing in the
best-so-far sense). -/
theorem claim_C6_best (E : RunEnv) (ps0 : PoisonSet) (i j : ℕ) (h : i ≤ j) :
    bestUpTo ((runLoop E ps0).recs) i ≤ bestUpTo ((runLoop E ps0).recs) j :=
  bestUpTo_mono ((runLoop E ps0).recs) i j h

/-- C6 witness: on the constant run the best-so-far after iteration 0 is
at most the best-so-far after iteration 1. -/
theorem claim_C6_best_witness :
    bestUpTo ((runLoop envConst (initPoison envConst 1 0)).recs) 0 ≤
      bestUpTo ((runLoop envConst (initPoison envConst 1 0)).recs) 1 :=
  claim_C6_best envConst (initPoison envConst 1 0) 0 1 (by decide)

/-! ### Claim C7 -/

/-- C7: on clean data with duplicated columns, the linear fit (λ = 0)
fails with `NumericalInstability` while the ridge fit (λ = 1) solves
normally; the linear optimizer treats every failed fit as a failed
iteration (both records flag no progress) and `generate` still returns
the best previously accepted state — here the seed poison set — instead
of aborting, and the ridge variant completes with an accepted iteration
0. -/
theorem claim_C7_instability :
    fitModel 0 [[1, 1], [2, 2]] [1, 2] = Except.error PoisonError.NumericalInstability ∧
    fitModel 1 [[1, 1], [2, 2]] [1, 2] = Except.ok [5 / 11, 5 / 11] ∧
    generate cfgW stepId [[1, 1], [2, 2]] [1, 2] [0, 0] =
      Except.ok ([[1, 1], [2, 2]], [2, 1]) ∧
    (runLoop envSing (initPoison envSing 2 0)).recs.map (fun r => r.progress) =
      [false, false] ∧
    generate cfgRidge stepId [[1, 1], [2, 2]] [1, 2] [0, 0] =
      Except.ok ([[1, 1], [2, 2]], [2, 1]) ∧
    ((runLoop envRidge (initPoison envRidge 2 0)).recs.getD 0 recDefault).progress =
      true :=
  ⟨rfl, rfl, rfl, by decide, rfl, by decide⟩

/-! ### Claim C8 -/

/-- C8 (amended): `generate` fails with `InvalidConfiguration` exactly
when validation fails — poison proportion outside (0,1], mask length
different from the feature count, mismatched X/y row counts, or zero
restarts (the last listed by the spec's error taxonomy but missing from
the claim, as the counterexample below shows) — before any optimization work and
independent of it; with well-formed inputs and a computed poison count
below 1 it fails with `InsufficientPoisonBudget`. -/
theorem claim_C8_validation (cfg : GDConfig) (f : StepFn) (Xc : Mat) (yc : Vec)
    (mask : Vec) :
    (generate cfg f Xc yc mask = Except.error PoisonError.InvalidConfiguration ↔
      ¬ validConfig cfg Xc yc mask) ∧
    (validConfig cfg Xc yc mask → poisonCount cfg.poisonProportion Xc.length = 0 →
      generate cfg f Xc yc mask = Except.error PoisonError.InsufficientPoisonBudget) := by
  constructor
  · constructor
    · intro h hv
      unfold generate at h
      rw [if_pos hv] at h
      by_cases hk : poisonCount cfg.poisonProportion Xc.length = 0
      · rw [if_pos hk] at h
        simp at h
      · rw [if_neg hk] at h
        simp at h
    · intro hv
      unfold generate
      rw [if_neg hv]
  · intro hv hk
    unfold generate
    rw [if_pos hv, if_pos hk]

/-- C8 witness: a well-formed instance with proportion 1/100 of two
samples has poison count 0 and fails with `InsufficientPoisonBudget`,
and the zero-restart instance fails with `InvalidConfiguration`. -/
theorem claim_C8_validation_witness :
    generate cfgTiny stepId [[1], [2]] [1, 2] [0] =
      Except.error PoisonError.InsufficientPoisonBudget ∧
    generate cfgZeroInits stepId [[1], [2]] [1, 2] [0] =
      Except.error PoisonError.InvalidConfiguration :=
  ⟨(claim_C8_validation cfgTiny stepId [[1], [2]] [1, 2] [0]).2 (by decide) (by decide),
   (claim_C8_validation cfgZeroInits stepId [[1], [2]] [1, 2] [0]).1.mpr (by decide)⟩

/-- C8 counterexample: with proportion 1/2 ∈ (0,1], matching mask length
and row counts — all three conditions listed by the claim satisfied — but
zero restarts, `generate` still fails with `InvalidConfiguration`,
refuting "exactly when" for the claim's list. -/
theorem claim_C8_cex :
    (0 < cfgZeroInits.poisonProportion ∧ cfgZeroInits.poisonProportion ≤ 1) ∧
    ([(0 : ℚ)] : Vec).length = (([[1], [2]] : Mat).headD []).length ∧
    ([[1], [2]] : Mat).length = ([1, 2] : Vec).length ∧
    generate cfgZeroInits stepId [[1], [2]] [1, 2] [0] =
      Except.error PoisonError.InvalidConfiguration :=
  ⟨by decide, by decide, by decide, rfl⟩

/-! ### Claim C9 -/

/-- C9: `generate` is deterministic — two runs with identical
configuration, step strategy, data and mask return identical poison
matrices and labels. -/
theorem claim_C9_deterministic (a b : GDConfig) (f g : StepFn) (X1 X2 : Mat)
    (y1 y2 : Vec) (m1 m2 : Vec) (hc : a = b) (hf : f = g) (hX : X1 = X2)
    (hy : y1 = y2) (hm : m1 = m2) :
    generate a f X1 y1 m1 = generate b g X2 y2 m2 := by
  subst hc
  subst hf
  subst hX
  subst hy
  subst hm
  rfl

/-- C9 witness: the concrete baseline run equals itself on repetition. -/
theorem claim_C9_deterministic_witness :
    generate cfgW stepId [[1], [2]] [1, 2] [0] =
      generate cfgW stepId [[1], [2]] [1, 2] [0] :=
  claim_C9_deterministic cfgW cfgW stepId stepId [[1], [2]] [[1], [2]] [1, 2] [1, 2]
    [0] [0] rfl rfl rfl rfl rfl

/-! ### Claim C10 -/

/-- C10: the iteration-0 record's change equals its objective value (the
previous objective is implicitly 0 at the start of a restart) and carries
no out-of-bounds count, while every later record carries one. -/
theorem claim_C10_iterZero (E : RunEnv) (ps0 : PoisonSet) (i : ℕ) (h1 : 1 ≤ i)
    (h2 : i < ((runLoop E ps0).recs).length) :
    (((runLoop E ps0).recs).getD 0 recDefault).change =
      (((runLoop E ps0).recs).getD 0 recDefault).obj ∧
    (((runLoop E ps0).recs).getD 0 recDefault).outb = none ∧
    ((((runLoop E ps0).recs).getD i recDefault).outb).isSome = true := by
  obtain ⟨r0, tail, hrecs, hidx0, hout0, hch0, hidx, hsome⟩ := runLoop_recs E ps0
  rw [hrecs] at h2 ⊢
  obtain ⟨i2, rfl⟩ : ∃ i2, i = i2 + 1 := ⟨i - 1, by omega⟩
  refine ⟨?_, ?_, ?_⟩
  · rw [List.getD_cons_zero]
    exact hch0
  · rw [List.getD_cons_zero]
    exact hout0
  · rw [List.getD_cons_succ]
    refine hsome _ (getD_mem recDefault tail i2 ?_)
    have : i2 + 1 < tail.length + 1 := by simpa using h2
    omega

/-- C10 witness: on the constant run, the iteration-0 record has change
equal to its objective and no out-of-bounds count, while the iteration-1
record carries one. -/
theorem claim_C10_iterZero_witness :
    (((runLoop envConst (initPoison envConst 1 0)).recs).getD 0 recDefault).change =
      (((runLoop envConst (initPoison envConst 1 0)).recs).getD 0 recDefault).obj ∧
    (((runLoop envConst (initPoison envConst 1 0)).recs).getD 0 recDefault).outb =
      none ∧
    ((((runLoop envConst (initPoison envConst 1 0)).recs).getD 1 recDefault).outb).isSome =
      true :=
  claim_C10_iterZero envConst (initPoison envConst 1 0) 1 (by decide) (by decide)

end PoisonGD
